import Mathlib

/-!
Verification development for the two FASTA-relabeling scripts of the
repository (`rename_nt.py`, pipeline A, and `seqid_to_species_name.py`,
pipeline B).

Strings are modelled as lists of characters.  Python string methods used by
the scripts (`split` on a literal separator, `replace(" ", "_")`, indexing
with `[0]` and `[-1]`) are embedded as structurally recursive functions so
that all results compute by kernel reduction.  The Python `dict` built by
`parse_csv` is an insertion-ordered association list with overwriting
insert; the exceptions the scripts can raise while loading the table
(`StopIteration` from the unconditional header skip, `IndexError` from
`row[1]`) are an explicit error type.
-/

/-- Character-list model of Python strings. -/
abbrev Chars := List Char

/-- Coerce a Lean string literal to its character list. -/
def strL (s : String) : Chars := s.data

/-- Prepend a character to the first segment of a split result
(used to build the list of segments front to back). -/
def consHead (a : Char) : List Chars → List Chars
  | [] => [[a]]
  | t :: ts => (a :: t) :: ts

/-- Python `s.split(sep)` for a single-character separator `sep`:
segments between occurrences of the character, empty segments kept. -/
def splitChar (c : Char) : Chars → List Chars
  | [] => [[]]
  | a :: rest =>
    if a = c then [] :: splitChar c rest
    else consHead a (splitChar c rest)

/-- Python `s.split("GN=")`: leftmost-first splitting on the literal
three-character marker, embedding line 17 of `rename_nt.py`. -/
def splitGN : Chars → List Chars
  | 'G' :: 'N' :: '=' :: rest => [] :: splitGN rest
  | c :: rest => consHead c (splitGN rest)
  | [] => [[]]

/-- Boolean test that `p` is an initial run of `s`. -/
def beginsWith : Chars → Chars → Bool
  | [], _ => true
  | _ :: _, [] => false
  | p :: ps, c :: cs => p == c && beginsWith ps cs

/-- The marker the gene-id extraction splits on. -/
def gnMarker : Chars := ['G', 'N', '=']

/-- Modelled from the claim wording: the text after the LAST occurrence of
`sep` in `s` (`none` when `sep` does not occur).  Later start positions are
preferred, so this is the genuine rightmost-occurrence suffix. -/
def afterLastOcc (sep : Chars) : Chars → Option Chars
  | [] => none
  | c :: rest =>
    match afterLastOcc sep rest with
    | some t => some t
    | none =>
      if beginsWith sep (c :: rest) then some (List.drop sep.length (c :: rest))
      else none

/-- Embedding of `record.description.split("GN=")[-1].split(" ")[0]`
(`rename_nt.py`, line 17), with Python indexing modelled fallibly:
`[-1]` is `getLast?` and `[0]` is `head?`. -/
def geneidO (d : Chars) : Option Chars :=
  match (splitGN d).getLast? with
  | none => none
  | some seg => (splitChar ' ' seg).head?

/-- Total form of the gene-id extraction; the indexing defaults are never
reached because a Python `split` never returns an empty list. -/
def geneid (d : Chars) : Chars :=
  ((splitChar ' ' ((splitGN d).getLastD [])).headD [])

/-- One FASTA record: identifier, description, and the opaque sequence
payload carried by the external codec. -/
structure SeqRecord where
  id : Chars
  description : Chars
  seq : Chars
deriving DecidableEq

/-- Loop body of the header fix of `rename_nt.py` (lines 16-18): overwrite
the identifier with the extracted gene id. -/
def fix_record (r : SeqRecord) : SeqRecord :=
  { r with id := geneid r.description }

/-- The header-fixing pass of `rename_nt.py`: the `for record in records`
loop applied to the materialized record list, emitting in input order. -/
def fix_headers : List SeqRecord → List SeqRecord
  | [] => []
  | r :: rs => fix_record r :: fix_headers rs

/-- Errors the table loader of `seqid_to_species_name.py` can raise:
`next(reader)` raises `StopIteration` on an empty file and `row[1]` raises
`IndexError` on a row with fewer than two fields. -/
inductive PyErr where
  | stopIteration
  | indexError
deriving DecidableEq

deriving instance DecidableEq for Except

/-- The rename table: an insertion-ordered association list, the model of
the Python dict `new_names`. -/
abbrev Table := List (Chars × Chars)

/-- Python dict assignment `d[k] = v`: overwrite in place if the key is
present, append otherwise. -/
def dictInsert (k v : Chars) : Table → Table
  | [] => [(k, v)]
  | (k', v') :: rest =>
    if k' = k then (k, v) :: rest else (k', v') :: dictInsert k v rest

/-- Python dict lookup, also deciding `k in d`. -/
def dictFind (k : Chars) : Table → Option Chars
  | [] => none
  | (k', v) :: rest => if k' = k then some v else dictFind k rest

/-- Python `v.replace(" ", "_")` (line 112 of the script). -/
def replaceSpace : Chars → Chars
  | [] => []
  | c :: rest => (if c = ' ' then '_' else c) :: replaceSpace rest

/-- The `for row in reader` loop of `parse_csv`: each data row must have at
least two fields; the second field has its spaces replaced by underscores
and is stored under the first field. -/
def parse_csv_rows : List (List Chars) → Table → Except PyErr Table
  | [], nn => .ok nn
  | row :: rest, nn =>
    match row with
    | k :: v :: _ => parse_csv_rows rest (dictInsert k (replaceSpace v) nn)
    | _ => .error .indexError

/-- Embedding of `parse_csv` (lines 101-114): skip the header row
unconditionally (raising `StopIteration` when there is none), then load
every data row into the dict. -/
def parse_csv (rows : List (List Chars)) : Except PyErr Table :=
  match rows with
  | [] => .error .stopIteration
  | _hdr :: data => parse_csv_rows data []

/-- The lookup key `seqid = record.id.split("/")[0]` (line 123). -/
def seqid (r : SeqRecord) : Chars :=
  (splitChar '/' r.id).headD []

/-- Loop body of `update_sequences` (lines 119-128): on a table hit, first
reset the description to the original identifier followed by the original
description, then overwrite the identifier with the mapped value; on a
miss, yield the record untouched. -/
def update_sequence (new_names : Table) (r : SeqRecord) : SeqRecord :=
  match dictFind (seqid r) new_names with
  | some v => { r with description := r.id ++ ' ' :: r.description, id := v }
  | none => r

/-- The full generator `update_sequences` over a record list, yielding in
input order. -/
def update_sequences (new_names : Table) : List SeqRecord → List SeqRecord
  | [] => []
  | r :: rs => update_sequence new_names r :: update_sequences new_names rs

theorem splitChar_ne_nil (c : Char) (s : Chars) : splitChar c s ≠ [] := by
  induction s with
  | nil => simp [splitChar]
  | cons a rest ih =>
    simp only [splitChar]
    split
    · simp
    · cases h : splitChar c rest with
      | nil => exact absurd h ih
      | cons t ts => simp [consHead]

theorem headD_splitChar (c : Char) (s : Chars) :
    (splitChar c s).headD [] = s.takeWhile (fun a => a != c) := by
  induction s with
  | nil => simp [splitChar]
  | cons a rest ih =>
    by_cases hac : a = c
    · simp [splitChar, hac]
    · cases h : splitChar c rest with
      | nil => exact absurd h (splitChar_ne_nil c rest)
      | cons t ts =>
        rw [h] at ih
        simp [splitChar, hac, consHead, h, List.takeWhile_cons]
        simpa using ih

theorem splitGN_cons_ne (c : Char) (rest : Chars)
    (h : ∀ r', c = 'G' → rest = 'N' :: '=' :: r' → False) :
    splitGN (c :: rest) = consHead c (splitGN rest) := by
  rw [splitGN.eq_def]
  split
  · rename_i r' heq
    injection heq with h1 h2
    exact (h r' h1 h2).elim
  · rename_i c' rest' heq
    injection heq with h1 h2
    subst h1; subst h2; rfl
  · rename_i heq
    exact absurd heq (by simp)

theorem splitGN_ne_nil (s : Chars) : splitGN s ≠ [] := by
  induction s using splitGN.induct with
  | case1 rest ih => simp [splitGN]
  | case2 c rest h ih =>
    rw [splitGN_cons_ne c rest h]
    cases hs : splitGN rest with
    | nil => exact absurd hs ih
    | cons t ts => simp [consHead]
  | case3 => simp [splitGN]

theorem afterLastOcc_cons_not (sep : Chars) (c : Char) (r : Chars)
    (h : beginsWith sep (c :: r) = false) :
    afterLastOcc sep (c :: r) = afterLastOcc sep r := by
  simp only [afterLastOcc]
  cases hr : afterLastOcc sep r with
  | some t => rfl
  | none => simp [h]

theorem afterLastOcc_gn3 (rest : Chars) :
    afterLastOcc gnMarker ('G' :: 'N' :: '=' :: rest) =
      some ((afterLastOcc gnMarker rest).getD rest) := by
  cases hr : afterLastOcc gnMarker rest with
  | some t =>
    simp only [gnMarker] at hr
    simp [afterLastOcc, gnMarker, beginsWith, hr]
  | none =>
    simp only [gnMarker] at hr
    simp [afterLastOcc, gnMarker, beginsWith, hr]

theorem beginsWith_gn_false (c : Char) (rest : Chars)
    (h : ∀ r', c = 'G' → rest = 'N' :: '=' :: r' → False) :
    beginsWith gnMarker (c :: rest) = false := by
  by_cases hc : c = 'G'
  · subst hc
    cases rest with
    | nil => rfl
    | cons b r2 =>
      by_cases hb : b = 'N'
      · subst hb
        cases r2 with
        | nil => rfl
        | cons e r3 =>
          by_cases he : e = '='
          · subst he; exact (h r3 rfl rfl).elim
          · have hee : ('=' == e) = false := by
              rw [beq_eq_false_iff_ne]; exact fun hh => he hh.symm
            simp [gnMarker, beginsWith, hee]
      · have hbb : ('N' == b) = false := by
          rw [beq_eq_false_iff_ne]; exact fun hh => hb hh.symm
        simp [gnMarker, beginsWith, hbb]
  · have hcc : ('G' == c) = false := by
      rw [beq_eq_false_iff_ne]; exact fun hh => hc hh.symm
    simp [gnMarker, beginsWith, hcc]

theorem splitGN_eq_single (s : Chars) (h : afterLastOcc gnMarker s = none) :
    splitGN s = [s] := by
  induction s using splitGN.induct with
  | case1 rest ih => rw [afterLastOcc_gn3] at h; exact absurd h (by simp)
  | case2 c rest hp ih =>
    rw [afterLastOcc_cons_not _ _ _ (beginsWith_gn_false c rest hp)] at h
    rw [splitGN_cons_ne c rest hp, ih h]
    rfl
  | case3 => rfl

theorem consHead_length (a : Char) (l : List Chars) (h : l ≠ []) :
    (consHead a l).length = l.length := by
  cases l with
  | nil => exact absurd rfl h
  | cons t ts => rfl

theorem splitGN_len_two (s : Chars) (h : (afterLastOcc gnMarker s).isSome = true) :
    2 ≤ (splitGN s).length := by
  induction s using splitGN.induct with
  | case1 rest ih =>
    have h1 := splitGN_ne_nil rest
    rw [show splitGN ('G' :: 'N' :: '=' :: rest) = [] :: splitGN rest from by
      simp [splitGN]]
    cases hs : splitGN rest with
    | nil => exact absurd hs h1
    | cons t ts => simp
  | case2 c rest hp ih =>
    rw [afterLastOcc_cons_not _ _ _ (beginsWith_gn_false c rest hp)] at h
    rw [splitGN_cons_ne c rest hp, consHead_length c _ (splitGN_ne_nil rest)]
    exact ih h
  | case3 => simp [afterLastOcc] at h

theorem getLastD_splitGN (s : Chars) :
    (splitGN s).getLastD [] = (afterLastOcc gnMarker s).getD s := by
  induction s using splitGN.induct with
  | case1 rest ih =>
    rw [show splitGN ('G' :: 'N' :: '=' :: rest) = [] :: splitGN rest from by
      simp [splitGN]]
    rw [List.getLastD_cons, afterLastOcc_gn3, Option.getD_some]
    exact ih
  | case2 c rest hp ih =>
    rw [splitGN_cons_ne c rest hp,
      afterLastOcc_cons_not _ _ _ (beginsWith_gn_false c rest hp)]
    cases hr : afterLastOcc gnMarker rest with
    | none =>
      rw [splitGN_eq_single rest hr]
      simp [consHead]
    | some t =>
      rw [hr] at ih
      simp only [Option.getD_some] at ih ⊢
      have h2 := splitGN_len_two rest (by rw [hr]; rfl)
      cases hs : splitGN rest with
      | nil => exact absurd hs (splitGN_ne_nil rest)
      | cons x xs =>
        cases xs with
        | nil => rw [hs] at h2; simp at h2
        | cons y ys =>
          rw [hs] at ih
          rw [show consHead c (x :: y :: ys) = (c :: x) :: y :: ys from rfl]
          rw [List.getLastD_cons, List.getLastD_cons] at ih ⊢
          exact ih
  | case3 => rfl

theorem head?_of_ne_nil (l : List Chars) (h : l ≠ []) : l.head? = some (l.headD []) := by
  cases l with
  | nil => exact absurd rfl h
  | cons a t => rfl

theorem getLast?_of_ne_nil (l : List Chars) (h : l ≠ []) :
    l.getLast? = some (l.getLastD []) := by
  rw [List.getLastD_eq_getLast?]
  cases hh : l.getLast? with
  | none => exact absurd (by rwa [List.getLast?_eq_none_iff] at hh) h
  | some t => rfl

theorem geneidO_eq_some (d : Chars) : geneidO d = some (geneid d) := by
  unfold geneidO geneid
  rw [getLast?_of_ne_nil _ (splitGN_ne_nil d)]
  exact head?_of_ne_nil _ (splitChar_ne_nil ' ' _)

theorem geneid_eq_afterLast (d : Chars) :
    geneid d = ((afterLastOcc gnMarker d).getD d).takeWhile (fun a => a != ' ') := by
  unfold geneid
  rw [getLastD_splitGN, headD_splitChar]

example : splitGN (strL "x GN=FOO y GN=BAR z") =
    [strL "x ", strL "FOO y ", strL "BAR z"] := by decide

example : geneid (strL "sp|P12345|foo GN=BRCA1 PE=1") = strL "BRCA1" := by decide

example : geneid (strL "x GN=FOO y GN=BAR z") = strL "BAR" := by decide

example : geneidO (strL "abc def") = some (strL "abc") := by decide

example : parse_csv [[strL "seqid", strL "species_name"], [strL "SEQ1", strL "Homo sapiens"]] =
    .ok [(strL "SEQ1", strL "Homo_sapiens")] := by decide

example : update_sequence [(strL "SEQ1", strL "Homo_sapiens")]
    ⟨strL "SEQ1/1-100", strL "SEQ1/1-100 putative kinase", strL "MKV"⟩ =
    ⟨strL "Homo_sapiens", strL "SEQ1/1-100 SEQ1/1-100 putative kinase", strL "MKV"⟩ := by
  decide

example : parse_csv [] = .error .stopIteration := by decide

example : parse_csv [[strL "seqid", strL "species_name"], [strL "only"]] =
    .error .indexError := by decide

example : afterLastOcc gnMarker (strL "x GN=FOO y GN=BAR z") = some (strL "BAR z") := by
  decide

example : afterLastOcc gnMarker (strL "abc def") = none := by decide

theorem parse_csv_rows_short_row (rows : List (List Chars)) :
    ∀ nn : Table, (∃ row ∈ rows, row.length < 2) →
      parse_csv_rows rows nn = .error .indexError := by
  induction rows with
  | nil => intro nn h; simp at h
  | cons row rest ih =>
    intro nn h
    rcases row with _ | ⟨k, _ | ⟨v, t⟩⟩
    · rfl
    · rfl
    · obtain ⟨row', hmem, hlen⟩ := h
      rcases List.mem_cons.mp hmem with heq | hmem'
      · subst heq; exact absurd hlen (by simp)
      · simp only [parse_csv_rows]
        exact ih _ ⟨row', hmem', hlen⟩

/-- C5: the lookup key pipeline B uses against the rename table is the
record's identifier truncated at the first slash, and in particular the
identifier `ABC123/45-67` is matched and relabeled by a table entry keyed
`ABC123`. -/
theorem lookup_key_is_truncation_at_slash :
    (∀ r : SeqRecord, seqid r = r.id.takeWhile (fun a => a != '/')) ∧
    (update_sequence [(strL "ABC123", strL "Species_x")]
        ⟨strL "ABC123/45-67", strL "putative kinase", strL "MKVL"⟩).id =
      strL "Species_x" := by
  constructor
  · intro r
    exact headD_splitChar '/' r.id
  · decide

/-- C1: on a rename-table hit, `update_sequences` sets the description to
the original identifier followed by a single space and the original
description, and sets the identifier to the table's mapped value. -/
theorem update_hit_sets_provenance_then_mapped_id
    (nn : Table) (r : SeqRecord) (v : Chars)
    (h : dictFind (r.id.takeWhile (fun a => a != '/')) nn = some v) :
    (update_sequence nn r).description = r.id ++ ' ' :: r.description ∧
    (update_sequence nn r).id = v := by
  have hk : seqid r = r.id.takeWhile (fun a => a != '/') := headD_splitChar '/' r.id
  unfold update_sequence
  rw [hk, h]
  exact ⟨rfl, rfl⟩

/-- Witness for C1: the end-to-end scenario of the specification. -/
theorem update_hit_end_to_end :
    parse_csv [[strL "seqid", strL "species_name"], [strL "SEQ1", strL "Homo sapiens"]] =
      .ok [(strL "SEQ1", strL "Homo_sapiens")] ∧
    (update_sequence [(strL "SEQ1", strL "Homo_sapiens")]
        ⟨strL "SEQ1/1-100", strL "SEQ1/1-100 putative kinase", strL "MKVL"⟩).description =
      strL "SEQ1/1-100 SEQ1/1-100 putative kinase" ∧
    (update_sequence [(strL "SEQ1", strL "Homo_sapiens")]
        ⟨strL "SEQ1/1-100", strL "SEQ1/1-100 putative kinase", strL "MKVL"⟩).id =
      strL "Homo_sapiens" := by
  refine ⟨by decide, ?_, ?_⟩
  · exact ((update_hit_sets_provenance_then_mapped_id _ _ (strL "Homo_sapiens")
      (by decide)).1).trans (by decide)
  · exact (update_hit_sets_provenance_then_mapped_id _ _ (strL "Homo_sapiens")
      (by decide)).2

/-- C2: on a rename-table miss, `update_sequences` leaves both the
identifier and the description of the record exactly as they were. -/
theorem update_miss_leaves_record_unchanged
    (nn : Table) (r : SeqRecord)
    (h : dictFind (r.id.takeWhile (fun a => a != '/')) nn = none) :
    (update_sequence nn r).id = r.id ∧
    (update_sequence nn r).description = r.description := by
  have hk : seqid r = r.id.takeWhile (fun a => a != '/') := headD_splitChar '/' r.id
  unfold update_sequence
  rw [hk, h]
  exact ⟨rfl, rfl⟩

/-- Witness for C2: a record whose key is absent from the table passes
through untouched. -/
theorem update_miss_witness :
    dictFind ((strL "SEQ9/1-5").takeWhile (fun a => a != '/'))
      [(strL "XYZ", strL "Vulpes_vulpes")] = none ∧
    (update_sequence [(strL "XYZ", strL "Vulpes_vulpes")]
        ⟨strL "SEQ9/1-5", strL "some text", strL "MKVL"⟩).id = strL "SEQ9/1-5" ∧
    (update_sequence [(strL "XYZ", strL "Vulpes_vulpes")]
        ⟨strL "SEQ9/1-5", strL "some text", strL "MKVL"⟩).description =
      strL "some text" := by
  refine ⟨by decide, ?_, ?_⟩
  · exact (update_miss_leaves_record_unchanged _ _ (by decide)).1.trans (by decide)
  · exact (update_miss_leaves_record_unchanged _ _ (by decide)).2.trans (by decide)

/-- C10: an empty rename-table file makes `parse_csv` fail at the
unconditional header skip with the Python `StopIteration` error; no table
is produced. -/
theorem empty_table_file_raises_stop_iteration :
    parse_csv ([] : List (List Chars)) = .error .stopIteration := rfl

/-- C7: a rename-table input with any data row of fewer than two fields
fails to load with an index error, so no such row ever contributes an
entry. -/
theorem short_table_row_fails_with_index_error
    (hdr : List Chars) (rows : List (List Chars))
    (h : ∃ row ∈ rows, row.length < 2) :
    parse_csv (hdr :: rows) = .error .indexError :=
  parse_csv_rows_short_row rows [] h

/-- Witness for C7: a one-field data row aborts the load. -/
theorem short_table_row_witness :
    (∃ row ∈ [[strL "onlyfield"]], row.length < 2) ∧
    parse_csv [[strL "seqid", strL "species_name"], [strL "onlyfield"]] =
      .error .indexError := by
  refine ⟨by decide, ?_⟩
  exact short_table_row_fails_with_index_error _ _ (by decide)

/-- C8: both the header-fixing pass of pipeline A and the update pass of
pipeline B emit exactly as many records as they receive, in input order
(the i-th output is the transform of the i-th input). -/
theorem pipelines_preserve_count_and_order (nn : Table) (rs : List SeqRecord) :
    (fix_headers rs).length = rs.length ∧
    (update_sequences nn rs).length = rs.length ∧
    fix_headers rs = rs.map fix_record ∧
    update_sequences nn rs = rs.map (update_sequence nn) := by
  induction rs with
  | nil => exact ⟨rfl, rfl, rfl, rfl⟩
  | cons r rest ih =>
    obtain ⟨h1, h2, h3, h4⟩ := ih
    refine ⟨?_, ?_, ?_, ?_⟩ <;> simp [fix_headers, update_sequences, h1, h2, h3, h4]

/-- C9: neither pipeline ever modifies the sequence payload of a record,
per record and across whole record lists. -/
theorem pipelines_never_touch_sequence_data
    (nn : Table) (r : SeqRecord) (rs : List SeqRecord) :
    (fix_record r).seq = r.seq ∧
    (update_sequence nn r).seq = r.seq ∧
    (fix_headers rs).map SeqRecord.seq = rs.map SeqRecord.seq ∧
    (update_sequences nn rs).map SeqRecord.seq = rs.map SeqRecord.seq := by
  have hu : ∀ x : SeqRecord, (update_sequence nn x).seq = x.seq := by
    intro x
    unfold update_sequence
    cases dictFind (seqid x) nn with
    | some v => rfl
    | none => rfl
  refine ⟨rfl, hu r, ?_, ?_⟩
  · induction rs with
    | nil => rfl
    | cons x rest ih => simp [fix_headers, fix_record, ih]
  · induction rs with
    | nil => rfl
    | cons x rest ih => simp [update_sequences, hu, ih]

/-- Counterexample for C3: the source truncates the final `GN=` segment at
the first SPACE, not at the first whitespace character.  For the
description `GN=A<TAB>B` the claim predicts identifier `A` while the code
yields `A<TAB>B`. -/
theorem geneid_first_whitespace_counterexample :
    (afterLastOcc gnMarker (strL "GN=A\tB")).isSome = true ∧
    ¬ (geneid (strL "GN=A\tB") =
        ((afterLastOcc gnMarker (strL "GN=A\tB")).getD (strL "GN=A\tB")).takeWhile
          (fun a => !a.isWhitespace)) := by
  exact ⟨by decide, by decide⟩

/-- C3 (amended: truncation happens at the first SPACE character of the
segment, not at the first whitespace character): for every description
containing the marker, the new identifier is the text after the last
occurrence of `GN=`, truncated at the first space. -/
theorem geneid_after_last_marker_to_first_space (d : Chars)
    (_h : (afterLastOcc gnMarker d).isSome = true) :
    geneid d = ((afterLastOcc gnMarker d).getD d).takeWhile (fun a => a != ' ') :=
  geneid_eq_afterLast d

/-- Witness for C3: last-marker-wins on `x GN=FOO y GN=BAR z`, giving
`BAR`. -/
theorem geneid_last_marker_wins_witness :
    (afterLastOcc gnMarker (strL "x GN=FOO y GN=BAR z")).isSome = true ∧
    geneid (strL "x GN=FOO y GN=BAR z") = strL "BAR" := by
  refine ⟨by decide, ?_⟩
  exact (geneid_after_last_marker_to_first_space _ (by decide)).trans (by decide)

/-- Counterexample for C6: on the marker-free description `abc def` the
extraction neither fails nor uses the whole description; it silently uses
`abc`, the text before the first space. -/
theorem geneid_missing_marker_counterexample :
    afterLastOcc gnMarker (strL "abc def") = none ∧
    ¬ (geneidO (strL "abc def") = none ∨
        geneidO (strL "abc def") = some (strL "abc def")) := by
  exact ⟨by decide, by decide⟩

/-- C6 (amended: when the marker is absent the extraction cannot fail and
silently uses the text of the description before its first space as the new
identifier). -/
theorem geneid_missing_marker_first_token (d : Chars)
    (h : afterLastOcc gnMarker d = none) :
    geneidO d = some (d.takeWhile (fun a => a != ' ')) := by
  rw [geneidO_eq_some]
  unfold geneid
  rw [splitGN_eq_single d h]
  rw [show ([d] : List Chars).getLastD [] = d from rfl]
  rw [headD_splitChar]

/-- Witness for C6: a marker-free description with an internal space. -/
theorem geneid_missing_marker_witness :
    afterLastOcc gnMarker (strL "MKV LLS") = none ∧
    geneidO (strL "MKV LLS") = some (strL "MKV") := by
  refine ⟨by decide, ?_⟩
  exact (geneid_missing_marker_first_token _ (by decide)).trans (by decide)

/-- Evaluation for C4 at the failing input: `replace(" ", "_")` only
normalizes spaces, so a tab inside a table value survives the load and the
relabeling writes a whitespace character into an identifier that had none,
contrary to the claim and to the script docstring, which promises that any
whitespace in the proposed name is replaced with an underscore. -/
theorem table_load_keeps_tab_in_identifier :
    parse_csv [[strL "seqid", strL "species_name"], [strL "k", strL "a\tb"]] =
      .ok [(strL "k", strL "a\tb")] ∧
    (strL "k").all (fun a => !a.isWhitespace) = true ∧
    (update_sequence [(strL "k", strL "a\tb")]
        ⟨strL "k", strL "some description", strL "MKVL"⟩).id.any
      (fun a => a.isWhitespace) = true := by
  exact ⟨by decide, by decide, by decide⟩
